import Mathlib

/- Shallow embedding of the react-native-body-highlighter data merge and
   color resolution pipeline. Definitions are translated from the TypeScript
   source: the slug parser and color scale utilities and the Body component.
   Numbers are modeled as rationals, JS undefined as Option none, and the
   emitted SVG paths as an explicit list of draw instructions. -/

namespace BodyHighlighter

/-! Slug parser -/

inductive LRSide where
  | left
  | right
deriving DecidableEq

structure MuscleSlugParts where
  base : String
  side : Option LRSide
deriving DecidableEq

/-- Models the JS test slug.endsWith(t): t is a literal suffix of s. -/
def strEndsWith (s t : String) : Bool := t.data.isSuffixOf s.data

/-- parseMuscleSlug from the slug parser module: strip a trailing -left or
-right from the identifier, purely lexically. -/
def parseMuscleSlug (slug : String) : MuscleSlugParts :=
  if strEndsWith slug "-left" then ⟨slug.dropRight 5, some .left⟩
  else if strEndsWith slug "-right" then ⟨slug.dropRight 6, some .right⟩
  else ⟨slug, none⟩

/-! Color scale resolver -/

inductive Interpolation where
  | linear
  | step
deriving DecidableEq

structure ColorStop where
  value : ℚ
  color : String
deriving DecidableEq

structure ColorScale where
  stops : List ColorStop
  interpolation : Option Interpolation
deriving DecidableEq

/-- DEFAULT_PROGRESS_SCALE from the color scale module. -/
def DEFAULT_PROGRESS_SCALE : ColorScale :=
  { stops :=
      [ ⟨-100, "#ef4444"⟩
      , ⟨-50, "#f87171"⟩
      , ⟨0, "#9ca3af"⟩
      , ⟨50, "#4ade80"⟩
      , ⟨100, "#22c55e"⟩ ],
    interpolation := some .linear }

/-- Hexadecimal digit value of a character, none when it is not a hex digit. -/
def hexDigitVal (c : Char) : Option Nat :=
  if '0' ≤ c ∧ c ≤ '9' then some (c.toNat - '0'.toNat)
  else if 'a' ≤ c ∧ c ≤ 'f' then some (c.toNat - 'a'.toNat + 10)
  else if 'A' ≤ c ∧ c ≤ 'F' then some (c.toNat - 'A'.toNat + 10)
  else none

/-- Models parseInt(s, 16) applied to a substring of at most two characters:
JS parses the longest hex-digit prefix and yields NaN (here none) when the
first character is not a hex digit. -/
def parseHex2 : List Char → Option Nat
  | [] => none
  | [c] => hexDigitVal c
  | c1 :: c2 :: _ =>
    match hexDigitVal c1, hexDigitVal c2 with
    | some d1, some d2 => some (16 * d1 + d2)
    | some d1, none => some d1
    | none, _ => none

/-- Models color.replace of the hash pattern with the empty string: JS
replace with a string pattern removes only the first occurrence. -/
def removeFirstHash : List Char → List Char
  | [] => []
  | c :: rest => if c = '#' then rest else c :: removeFirstHash rest

/-- One channel of a hex color string: parseInt(hex.substring(i, i+2), 16). -/
def channelAt (hex : List Char) (i : Nat) : Option Nat :=
  parseHex2 ((hex.drop i).take 2)

/-- Models JS Math.round on reals: round half toward positive infinity. -/
def jsRound (q : ℚ) : Int := ⌊q + 1 / 2⌋

/-- One interpolated channel, round(r1 + (r2 - r1) * factor); none models the
NaN produced when a channel failed to parse. -/
def interpChannel (c1 c2 : Option Nat) (factor : ℚ) : Option Int :=
  match c1, c2 with
  | some a, some b => some (jsRound ((a : ℚ) + ((b : ℚ) - (a : ℚ)) * factor))
  | _, _ => none

/-- Models Number.prototype.toString with radix 16 on the rounded channel; the
float NaN prints as the string NaN. -/
def intToString16 : Option Int → String
  | none => "NaN"
  | some n =>
    if n < 0 then "-" ++ (Nat.toDigits 16 n.natAbs).asString
    else (Nat.toDigits 16 n.toNat).asString

/-- Models padStart(2, zero character). -/
def padStart2 (s : String) : String :=
  if s.length ≥ 2 then s else ⟨List.replicate (2 - s.length) '0' ++ s.data⟩

/-- interpolateColor from the color scale module. -/
def interpolateColor (color1 color2 : String) (factor : ℚ) : String :=
  let hex1 := removeFirstHash color1.data
  let hex2 := removeFirstHash color2.data
  let r := interpChannel (channelAt hex1 0) (channelAt hex2 0) factor
  let g := interpChannel (channelAt hex1 2) (channelAt hex2 2) factor
  let b := interpChannel (channelAt hex1 4) (channelAt hex2 4) factor
  "#" ++ padStart2 (intToString16 r) ++ padStart2 (intToString16 g) ++ padStart2 (intToString16 b)

/-- Channel result when the interpolation factor is a signed infinity: in JS
the expression round(r1 + (r2 - r1) * factor) is NaN when r2 = r1 and the
signed infinity otherwise, and those float values print as NaN, Infinity and
-Infinity (padStart leaves them unchanged). The flag is the factor sign. -/
def interpChannelInf (c1 c2 : Option Nat) (positive : Bool) : String :=
  match c1, c2 with
  | some a, some b =>
    if b = a then "NaN"
    else if (decide (a < b)) = positive then "Infinity" else "-Infinity"
  | _, _ => "NaN"

/-- interpolateColor specialised to an infinite factor, as produced by the
unguarded division by zero in getProgressColor. -/
def interpolateColorInf (color1 color2 : String) (positive : Bool) : String :=
  let hex1 := removeFirstHash color1.data
  let hex2 := removeFirstHash color2.data
  "#" ++ padStart2 (interpChannelInf (channelAt hex1 0) (channelAt hex2 0) positive)
      ++ padStart2 (interpChannelInf (channelAt hex1 2) (channelAt hex2 2) positive)
      ++ padStart2 (interpChannelInf (channelAt hex1 4) (channelAt hex2 4) positive)

/-- Insert one stop into a value-sorted list, after existing stops of smaller
or equal value, so that earlier input stops of equal value stay first. -/
def insertSorted (x : ColorStop) : List ColorStop → List ColorStop
  | [] => [x]
  | y :: ys => if y.value ≤ x.value then y :: insertSorted x ys else x :: y :: ys

/-- Stable insertion sort of the stops by value. JS Array.prototype.sort is
stable, so on the numeric comparator over values its output is exactly this
list. -/
def sortStops (l : List ColorStop) : List ColorStop :=
  l.foldl (fun acc x => insertSorted x acc) []

/-- The sorted copy of the stops built at the top of getProgressColor. -/
def sortedStopsOf (scale : ColorScale) : List ColorStop := sortStops scale.stops

/-- Clamp of the progress value: Math.max(-100, Math.min(100, value)). -/
def clampValue (value : ℚ) : ℚ := max (-100) (min 100 value)

/-- The scan for the first adjacent pair of sorted stops bracketing the
clamped value, mirroring the for loop with break in getProgressColor. -/
def findBracket (c : ℚ) : List ColorStop → Option (ColorStop × ColorStop)
  | a :: b :: rest =>
    if a.value ≤ c ∧ c ≤ b.value then some (a, b) else findBracket c (b :: rest)
  | _ => none

/-- The pair (lowerStop, upperStop) after the scan: the loop initialises them
to the first and last sorted stop and overwrites both when a bracket is
found. -/
def selectedPair (c : ℚ) (first : ColorStop) (rest : List ColorStop) : ColorStop × ColorStop :=
  (findBracket c (first :: rest)).getD
    (first, (first :: rest).getLast (List.cons_ne_nil first rest))

/-- getProgressColor from the color scale module. The result is none exactly
when the stops list is empty, where the JS code dereferences undefined and
throws. The JS division by zero on a degenerate bracket yields a signed
infinity; that float behaviour is modeled by the explicit range = 0 branch,
while the other branch takes the source division verbatim over rationals. -/
def getProgressColor (value : ℚ) (scale : ColorScale) : Option String :=
  let clampedValue := clampValue value
  match sortedStopsOf scale with
  | [] => none
  | first :: rest =>
    let lowerStop := (selectedPair clampedValue first rest).1
    let upperStop := (selectedPair clampedValue first rest).2
    if clampedValue = lowerStop.value then some lowerStop.color
    else if clampedValue = upperStop.value then some upperStop.color
    else if scale.interpolation = some .step then some lowerStop.color
    else
      let range := upperStop.value - lowerStop.value
      if range = 0 then
        some (interpolateColorInf lowerStop.color upperStop.color
          (decide (0 < clampedValue - lowerStop.value)))
      else
        some (interpolateColor lowerStop.color upperStop.color
          ((clampedValue - lowerStop.value) / range))

/-! Body component data model -/

inductive PartSide where
  | left
  | right
  | both
deriving DecidableEq

structure BodyPartProgress where
  value : ℚ
  color : Option String
  showValue : Option Bool
deriving DecidableEq

structure BodyPartStyles where
  fill : Option String
  stroke : Option String
  strokeWidth : Option ℚ
deriving DecidableEq

structure PathGroups where
  common : Option (List String)
  left : Option (List String)
  right : Option (List String)
deriving DecidableEq

/-- ExtendedBodyPart: asset fields plus the user data fields. A raw asset
record is the same shape with the user fields absent (undefined in JS, none
here). Intensity is kept as an integer; the library validates it as one. -/
structure ExtendedBodyPart where
  slug : Option String
  color : Option String
  path : Option PathGroups
  intensity : Option Int
  progress : Option BodyPartProgress
  side : Option PartSide
  styles : Option BodyPartStyles
deriving DecidableEq

/-- The props of the Body component that feed the merge and render logic. -/
structure Config where
  colors : List String
  colorScale : ColorScale
  border : String
  disabledParts : List String
  muscleStroke : String
  hiddenParts : List String
  backgroundColor : String
  defaultFill : String
  skinColor : String
  hairColor : String
  defaultStroke : String
  defaultStrokeWidth : ℚ

/-- The default prop values of the Body component. -/
def defaultCfg : Config :=
  { colors := ["#0984e3", "#74b9ff"]
  , colorScale := DEFAULT_PROGRESS_SCALE
  , border := "#dfdfdf"
  , disabledParts := []
  , muscleStroke := "#dfdfdf"
  , hiddenParts := []
  , backgroundColor := "transparent"
  , defaultFill := "#f5f5f5"
  , skinColor := "#f5f5f5"
  , hairColor := "transparent"
  , defaultStroke := "none"
  , defaultStrokeWidth := 0 }

/-- JS truthiness of an optional string: undefined and the empty string are
the falsy cases. -/
def jsFalsyStr : Option String → Bool
  | none => true
  | some s => s == ""

/-- JS truthiness of the optional intensity number: undefined and zero are
falsy. -/
def intensityTruthy : Option Int → Bool
  | some n => !(n == 0)
  | none => false

/-- JS array indexing colors at an integer position: undefined when out of
range, including negative positions. -/
def listGetInt (l : List String) (i : Int) : Option String :=
  if 0 ≤ i then l[i.toNat]? else none

/-! Side buckets (userDataByBaseSlug) -/

structure UserSideBucket where
  both : Option ExtendedBodyPart
  left : Option ExtendedBodyPart
  right : Option ExtendedBodyPart
deriving DecidableEq

def emptyBucket : UserSideBucket := ⟨none, none, none⟩

/-- Slot accessor of a bucket. -/
def UserSideBucket.get (bucket : UserSideBucket) : PartSide → Option ExtendedBodyPart
  | .both => bucket.both
  | .left => bucket.left
  | .right => bucket.right

/-- Slot update of a bucket. -/
def UserSideBucket.set (bucket : UserSideBucket) (sd : PartSide) (e : ExtendedBodyPart) :
    UserSideBucket :=
  match sd with
  | .both => { bucket with both := some e }
  | .left => { bucket with left := some e }
  | .right => { bucket with right := some e }

/-- The resolution effectiveSide = suffixSide or entry side or both, with the
suffix side taking precedence. -/
def effectiveSideOf (suffixSide : Option LRSide) (entrySide : Option PartSide) : PartSide :=
  match suffixSide with
  | some .left => .left
  | some .right => .right
  | none => entrySide.getD .both

/-- The normalized entry stored in a bucket slot: the slug is replaced by the
base slug and the side by the effective side. -/
def normalizeEntry (userPart : ExtendedBodyPart) (b : String) (eff : PartSide) :
    ExtendedBodyPart :=
  { userPart with slug := some b, side := some eff }

/-- One iteration of the forEach in userDataByBaseSlug. Entries with a falsy
slug (undefined or empty) are skipped. The JS Map keyed by base slug is
modeled as a total function defaulting to the empty bucket, which matches the
JS reads: map.get(base) or empty on insert, and optional chaining on lookup. -/
def insertEntry (m : String → UserSideBucket) (userPart : ExtendedBodyPart) :
    String → UserSideBucket :=
  match userPart.slug with
  | none => m
  | some s =>
    if s = "" then m
    else
      let parts := parseMuscleSlug s
      let eff := effectiveSideOf parts.side userPart.side
      let bucket := (m parts.base).set eff (normalizeEntry userPart parts.base eff)
      fun k => if k = parts.base then bucket else m k

/-- userDataByBaseSlug from the Body component. -/
def userDataByBaseSlug (data : List ExtendedBodyPart) : String → UserSideBucket :=
  data.foldl insertEntry (fun _ => emptyBucket)

/-! Merge engine -/

/-- mergeAssetWithUserData from the Body component. The JS function mutates
the progress sub-record of the user entry in place when it attaches a derived
color; this state effect is modeled by returning, next to the merged part,
the user entry as observable through its original reference after the call.
When the stops of the scale are empty the JS color derivation throws; here
the attached color is none in that case. -/
def mergeAssetWithUserData (cfg : Config) (assetPart : ExtendedBodyPart)
    (userPart : Option ExtendedBodyPart) : ExtendedBodyPart × Option ExtendedBodyPart :=
  match userPart with
  | none => (assetPart, none)
  | some u =>
    let merged : ExtendedBodyPart :=
      { assetPart with
        styles := u.styles, intensity := u.intensity, progress := u.progress, color := u.color }
    let merged :=
      if jsFalsyStr (merged.styles.bind (·.fill)) && jsFalsyStr merged.color
          && intensityTruthy merged.intensity then
        { merged with color := listGetInt cfg.colors (merged.intensity.getD 0 - 1) }
      else merged
    match merged.progress with
    | some p =>
      if jsFalsyStr p.color then
        let p2 : BodyPartProgress := { p with color := getProgressColor p.value cfg.colorScale }
        ({ merged with progress := some p2 }, some { u with progress := some p2 })
      else (merged, some u)
    | none => (merged, some u)

/-! Color resolution -/

/-- Truthy slug membership: the JS guard slug and list.includes(slug). -/
def slugTruthyMem (slug : Option String) (l : List String) : Bool :=
  match slug with
  | some s => !(s == "") && l.contains s
  | none => false

def skinParts : List String := ["hands", "feet", "head"]

/-- getColorToFill from the Body component, the color priority chain. -/
def getColorToFill (cfg : Config) (bodyPart : ExtendedBodyPart) : Option String :=
  if slugTruthyMem bodyPart.slug cfg.disabledParts then some "#EBEBE4"
  else if bodyPart.slug = some "hair" then some cfg.hairColor
  else if slugTruthyMem bodyPart.slug skinParts then some cfg.skinColor
  else if !(jsFalsyStr (bodyPart.styles.bind (·.fill))) then bodyPart.styles.bind (·.fill)
  else if !(jsFalsyStr bodyPart.color) then bodyPart.color
  else if (match bodyPart.intensity with | some n => decide (0 < n) | none => false) then
    listGetInt cfg.colors (bodyPart.intensity.getD 0 - 1)
  else
    match bodyPart.progress with
    | some p => getProgressColor p.value cfg.colorScale
    | none => none

/-- getPartStyles from the Body component. -/
structure ResolvedStyles where
  fill : String
  stroke : String
  strokeWidth : ℚ
deriving DecidableEq

def getPartStyles (cfg : Config) (bodyPart : ExtendedBodyPart) : ResolvedStyles :=
  { fill := (bodyPart.styles.bind (·.fill)).getD cfg.defaultFill
  , stroke := (bodyPart.styles.bind (·.stroke)).getD cfg.muscleStroke
  , strokeWidth := (bodyPart.styles.bind (·.strokeWidth)).getD cfg.defaultStrokeWidth }

/-! Render orchestrator -/

/-- isPartDisabled from the Body component: defined slug in the disabled
list (a plain undefined check, no truthiness here). -/
def isPartDisabled (cfg : Config) (slug : Option String) : Bool :=
  match slug with
  | some s => cfg.disabledParts.contains s
  | none => false

/-- The bucket used for an asset part: slug truthiness guards the Map read,
and a missing bucket reads as empty through the optional chaining. -/
def bucketFor (buckets : String → UserSideBucket) (slug : Option String) : UserSideBucket :=
  match slug with
  | some s => if s = "" then emptyBucket else buckets s
  | none => emptyBucket

/-- The three-way merge of renderBodySvg: both from the asset, then left and
right layered on top of the both merge. -/
def mergeForSegment (cfg : Config) (buckets : String → UserSideBucket)
    (assetPart : ExtendedBodyPart) :
    ExtendedBodyPart × ExtendedBodyPart × ExtendedBodyPart :=
  let bucket := bucketFor buckets assetPart.slug
  let mergedBoth := (mergeAssetWithUserData cfg assetPart bucket.both).1
  let mergedLeft := (mergeAssetWithUserData cfg mergedBoth bucket.left).1
  let mergedRight := (mergeAssetWithUserData cfg mergedBoth bucket.right).1
  (mergedBoth, mergedLeft, mergedRight)

inductive PathGroupKind where
  | common
  | left
  | right
deriving DecidableEq

/-- One emitted Path element: id, resolved fill, stroke, stroke width, the
path geometry and whether a press callback is attached. -/
structure DrawInstr where
  id : Option String
  group : PathGroupKind
  fill : String
  stroke : String
  strokeWidth : ℚ
  d : String
  pressEnabled : Bool
deriving DecidableEq

/-- The draw instructions emitted for one asset part by renderBodySvg: the
common paths with the both variant, then the left paths with the left
variant, then the right paths with the right variant. -/
def renderPart (cfg : Config) (buckets : String → UserSideBucket)
    (assetPart : ExtendedBodyPart) : List DrawInstr :=
  let slug := assetPart.slug
  let disabled := isPartDisabled cfg slug
  let m := mergeForSegment cfg buckets assetPart
  let stylesBoth := getPartStyles cfg m.1
  let stylesLeft := getPartStyles cfg m.2.1
  let stylesRight := getPartStyles cfg m.2.2
  let fillBoth := getColorToFill cfg m.1
  let fillLeft := getColorToFill cfg m.2.1
  let fillRight := getColorToFill cfg m.2.2
  let commonPaths := ((assetPart.path.bind (·.common)).getD []).map fun p =>
    DrawInstr.mk slug .common (fillBoth.getD stylesBoth.fill) stylesBoth.stroke
      stylesBoth.strokeWidth p (!disabled)
  let leftPaths := ((assetPart.path.bind (·.left)).getD []).map fun p =>
    DrawInstr.mk slug .left (fillLeft.getD stylesLeft.fill) stylesLeft.stroke
      stylesLeft.strokeWidth p (!disabled)
  let rightPaths := ((assetPart.path.bind (·.right)).getD []).map fun p =>
    DrawInstr.mk slug .right (fillRight.getD stylesRight.fill) stylesRight.stroke
      stylesRight.strokeWidth p (!disabled)
  commonPaths ++ leftPaths ++ rightPaths

/-- The filter on hidden parts applied before any merge work. -/
def hiddenFilter (cfg : Config) (part : ExtendedBodyPart) : Bool :=
  !(match part.slug with
    | some s => cfg.hiddenParts.contains s
    | none => false)

/-- renderBodySvg from the Body component: filter the hidden parts, then
emit the draw instructions of every remaining part in order. -/
def renderBodySvg (cfg : Config) (buckets : String → UserSideBucket)
    (bodyToRender : List ExtendedBodyPart) : List DrawInstr :=
  (bodyToRender.filter (hiddenFilter cfg)).flatMap (renderPart cfg buckets)

/-- The full Body render: build the side buckets from the user data, then
render the asset list. -/
def bodyOutput (cfg : Config) (data : List ExtendedBodyPart)
    (assets : List ExtendedBodyPart) : List DrawInstr :=
  renderBodySvg cfg (userDataByBaseSlug data) assets

/-! Concrete inputs used by the claims -/

/-- A user entry carrying only a slug and a progress value. -/
def sampleEntry (slug : String) (v : ℚ) : ExtendedBodyPart :=
  { slug := some slug, color := none, path := none, intensity := none
  , progress := some ⟨v, none, none⟩, side := none, styles := none }

/-- The data of claim C1: one biceps-left and one biceps-right entry. -/
def sampleData (v w : ℚ) : List ExtendedBodyPart :=
  [sampleEntry "biceps-left" v, sampleEntry "biceps-right" w]

/-- A step scale whose stops span only part of the range, for claim C8. -/
def cexStepScale : ColorScale :=
  { stops := [⟨0, "#111111"⟩, ⟨50, "#222222"⟩], interpolation := some .step }

/-- A degenerate scale where every stop has one same value, for claim C9. -/
def degenerateScale : ColorScale :=
  { stops := [⟨0, "#000000"⟩, ⟨0, "#ffffff"⟩], interpolation := some .linear }

/-- A duplicate-stop scale whose shared value lies inside the clamp range,
for the amended claim C9 witness. -/
def duplicateStopScale : ColorScale :=
  { stops := [⟨50, "#aa0000"⟩, ⟨50, "#bb0000"⟩], interpolation := some .linear }

/-- Value order on color stops, the relation that the sort establishes. -/
def StopLE (a b : ColorStop) : Prop := a.value ≤ b.value

/-! Sorting lemmas -/

theorem mem_insertSorted (x a : ColorStop) (l : List ColorStop) :
    a ∈ insertSorted x l ↔ a = x ∨ a ∈ l := by
  induction l with
  | nil => simp [insertSorted]
  | cons y ys ih =>
    by_cases h : y.value ≤ x.value
    · simp only [insertSorted, if_pos h, List.mem_cons, ih]
      tauto
    · simp [insertSorted, if_neg h]

theorem mem_foldl_insertSorted (a : ColorStop) (l : List ColorStop) :
    ∀ acc : List ColorStop,
      (a ∈ l.foldl (fun acc x => insertSorted x acc) acc ↔ a ∈ acc ∨ a ∈ l) := by
  induction l with
  | nil => intro acc; simp
  | cons y ys ih =>
    intro acc
    simp only [List.foldl_cons, ih, mem_insertSorted, List.mem_cons]
    tauto

theorem mem_sortStops (a : ColorStop) (l : List ColorStop) :
    a ∈ sortStops l ↔ a ∈ l := by
  simp [sortStops, mem_foldl_insertSorted]

theorem pairwise_insertSorted (x : ColorStop) (l : List ColorStop)
    (h : l.Pairwise StopLE) : (insertSorted x l).Pairwise StopLE := by
  induction l with
  | nil => simp [insertSorted, StopLE]
  | cons y ys ih =>
    rw [List.pairwise_cons] at h
    by_cases hle : y.value ≤ x.value
    · simp only [insertSorted, if_pos hle, List.pairwise_cons]
      refine ⟨?_, ih h.2⟩
      intro a ha
      rcases (mem_insertSorted x a ys).mp ha with rfl | ha
      · exact hle
      · exact h.1 a ha
    · simp only [insertSorted, if_neg hle, List.pairwise_cons]
      push_neg at hle
      refine ⟨?_, ?_, h.2⟩
      · intro a ha
        rcases List.mem_cons.mp ha with rfl | ha
        · exact le_of_lt hle
        · exact le_trans (le_of_lt hle) (h.1 a ha)
      · exact h.1

theorem pairwise_foldl_insertSorted (l : List ColorStop) :
    ∀ acc : List ColorStop, acc.Pairwise StopLE →
      (l.foldl (fun acc x => insertSorted x acc) acc).Pairwise StopLE := by
  induction l with
  | nil => intro acc h; simpa using h
  | cons y ys ih =>
    intro acc h
    exact ih _ (pairwise_insertSorted y acc h)

theorem pairwise_sortStops (l : List ColorStop) : (sortStops l).Pairwise StopLE :=
  pairwise_foldl_insertSorted l [] (by simp)

/-! Bracket scan lemmas -/

theorem findBracket_mem (c : ℚ) (l : List ColorStop) (a b : ColorStop)
    (h : findBracket c l = some (a, b)) : a ∈ l ∧ b ∈ l := by
  induction l with
  | nil => simp [findBracket] at h
  | cons x xs ih =>
    cases xs with
    | nil => simp [findBracket] at h
    | cons y ys =>
      by_cases ht : x.value ≤ c ∧ c ≤ y.value
      · rw [findBracket, if_pos ht] at h
        cases h
        exact ⟨List.mem_cons_self _ _, List.mem_cons_of_mem _ (List.mem_cons_self _ _)⟩
      · rw [findBracket, if_neg ht] at h
        have := ih h
        exact ⟨List.mem_cons_of_mem _ this.1, List.mem_cons_of_mem _ this.2⟩

theorem selectedPair_mem (c : ℚ) (first : ColorStop) (rest : List ColorStop) :
    (selectedPair c first rest).1 ∈ first :: rest ∧
      (selectedPair c first rest).2 ∈ first :: rest := by
  unfold selectedPair
  cases h : findBracket c (first :: rest) with
  | none =>
    simp only [Option.getD_none]
    exact ⟨List.mem_cons_self _ _, List.getLast_mem _⟩
  | some p =>
    simp only [Option.getD_some]
    exact findBracket_mem c _ p.1 p.2 (by simpa using h)

theorem findBracket_none_of_lt (c : ℚ) (l : List ColorStop)
    (h : ∀ s ∈ l, c < s.value) : findBracket c l = none := by
  induction l with
  | nil => rfl
  | cons x xs ih =>
    cases xs with
    | nil => rfl
    | cons y ys =>
      have hx : ¬(x.value ≤ c ∧ c ≤ y.value) := by
        intro hc
        exact absurd hc.1 (not_le.mpr (h x (List.mem_cons_self _ _)))
      rw [findBracket, if_neg hx]
      exact ih fun s hs => h s (List.mem_cons_of_mem _ hs)

theorem findBracket_none_of_gt (c : ℚ) (l : List ColorStop)
    (h : ∀ s ∈ l, s.value < c) : findBracket c l = none := by
  induction l with
  | nil => rfl
  | cons x xs ih =>
    cases xs with
    | nil => rfl
    | cons y ys =>
      have hx : ¬(x.value ≤ c ∧ c ≤ y.value) := by
        intro hc
        exact absurd hc.2 (not_le.mpr (h y (List.mem_cons_of_mem _ (List.mem_cons_self _ _))))
      rw [findBracket, if_neg hx]
      exact ih fun s hs => h s (List.mem_cons_of_mem _ hs)

theorem selectedPair_exact (c : ℚ) (rest : List ColorStop) :
    ∀ first : ColorStop, (first :: rest).Pairwise StopLE →
    (∃ s ∈ first :: rest, s.value = c) →
    c = (selectedPair c first rest).1.value ∨ c = (selectedPair c first rest).2.value := by
  induction rest with
  | nil =>
    intro first _ hex
    obtain ⟨s, hs, hv⟩ := hex
    simp only [List.mem_singleton] at hs
    subst hs
    left
    simp [selectedPair, findBracket, hv.symm]
  | cons b t ih =>
    intro first hpw hex
    have hpw1 := (List.pairwise_cons.mp hpw).1
    have hpwtail := (List.pairwise_cons.mp hpw).2
    have hpwt := (List.pairwise_cons.mp hpwtail).1
    by_cases htest : first.value ≤ c ∧ c ≤ b.value
    · have hsel : selectedPair c first (b :: t) = (first, b) := by
        simp [selectedPair, findBracket, if_pos htest]
      rw [hsel]
      obtain ⟨s, hs, hv⟩ := hex
      rcases List.mem_cons.mp hs with rfl | hs
      · exact Or.inl hv.symm
      rcases List.mem_cons.mp hs with rfl | hs
      · exact Or.inr hv.symm
      · right
        have hbs : b.value ≤ s.value := hpwt s hs
        have : b.value ≤ c := hv ▸ hbs
        exact le_antisymm htest.2 this
    · have hfb : findBracket c (first :: b :: t) = findBracket c (b :: t) := by
        rw [findBracket, if_neg htest]
      have hcne : c ≠ first.value := by
        intro hc
        apply htest
        constructor
        · exact le_of_eq hc.symm
        · exact hc ▸ hpw1 b (List.mem_cons_self _ _)
      have hex2 : ∃ s ∈ b :: t, s.value = c := by
        obtain ⟨s, hs, hv⟩ := hex
        rcases List.mem_cons.mp hs with rfl | hs
        · exact absurd hv.symm hcne
        · exact ⟨s, hs, hv⟩
      have hlast : (first :: b :: t).getLast (List.cons_ne_nil _ _) =
          (b :: t).getLast (List.cons_ne_nil _ _) := List.getLast_cons _
      cases hfbt : findBracket c (b :: t) with
      | some p =>
        have h1 : selectedPair c first (b :: t) = p := by
          simp [selectedPair, hfb, hfbt]
        have h2 : selectedPair c b t = p := by
          simp [selectedPair, hfbt]
        rw [h1]
        have := ih b hpwtail hex2
        rwa [h2] at this
      | none =>
        have h1 : selectedPair c first (b :: t) =
            (first, (b :: t).getLast (List.cons_ne_nil _ _)) := by
          simp [selectedPair, hfb, hfbt, hlast]
        have h2 : selectedPair c b t = (b, (b :: t).getLast (List.cons_ne_nil _ _)) := by
          simp [selectedPair, hfbt]
        have hiht := ih b hpwtail hex2
        rw [h2] at hiht
        rw [h1]
        rcases hiht with hcb | hclast
        · -- c equals the value of b although the scan on b :: t found nothing
          cases t with
          | nil => exact Or.inr (by simpa using hcb)
          | cons u t2 =>
            exfalso
            have : findBracket c (b :: u :: t2) = some (b, u) := by
              rw [findBracket, if_pos]
              exact ⟨le_of_eq hcb.symm, hcb ▸ hpwt u (List.mem_cons_self _ _)⟩
            rw [hfbt] at this
            exact Option.noConfusion this
        · exact Or.inr hclast

theorem selectedPair_bracket (c : ℚ) (rest : List ColorStop) :
    ∀ first : ColorStop, (first :: rest).Pairwise StopLE →
    first.value ≤ c → c ≤ ((first :: rest).getLast (List.cons_ne_nil _ _)).value →
    (selectedPair c first rest).1.value ≤ c ∧ c ≤ (selectedPair c first rest).2.value := by
  induction rest with
  | nil =>
    intro first _ h1 h2
    simp only [List.getLast_singleton] at h2
    constructor <;> simp [selectedPair, findBracket, h1, h2]
  | cons b t ih =>
    intro first hpw h1 h2
    have hpwtail := (List.pairwise_cons.mp hpw).2
    have hlast : (first :: b :: t).getLast (List.cons_ne_nil _ _) =
        (b :: t).getLast (List.cons_ne_nil _ _) := List.getLast_cons _
    rw [hlast] at h2
    by_cases htest : first.value ≤ c ∧ c ≤ b.value
    · have hsel : selectedPair c first (b :: t) = (first, b) := by
        simp [selectedPair, findBracket, if_pos htest]
      rw [hsel]
      exact htest
    · have hfb : findBracket c (first :: b :: t) = findBracket c (b :: t) := by
        rw [findBracket, if_neg htest]
      have hbc : b.value ≤ c := by
        by_contra hbc
        push_neg at hbc
        exact htest ⟨h1, le_of_lt hbc⟩
      have := ih b hpwtail hbc h2
      cases hfbt : findBracket c (b :: t) with
      | some p =>
        have h3 : selectedPair c first (b :: t) = p := by
          simp [selectedPair, hfb, hfbt]
        have h4 : selectedPair c b t = p := by
          simp [selectedPair, hfbt]
        rw [h3]
        rwa [h4] at this
      | none =>
        have h3 : selectedPair c first (b :: t) =
            (first, (b :: t).getLast (List.cons_ne_nil _ _)) := by
          simp [selectedPair, hfb, hfbt, hlast]
        rw [h3]
        exact ⟨h1, h2⟩

/-! Bucket lemmas -/

theorem UserSideBucket.get_set (b : UserSideBucket) (sd : PartSide) (e : ExtendedBodyPart) :
    (b.set sd e).get sd = some e := by
  cases sd <;> rfl

theorem UserSideBucket.get_set_ne (b : UserSideBucket) (sd sd2 : PartSide)
    (e : ExtendedBodyPart) (h : sd2 ≠ sd) : (b.set sd e).get sd2 = b.get sd2 := by
  cases sd <;> cases sd2 <;> first | rfl | exact absurd rfl h

theorem UserSideBucket.ext_get (b1 b2 : UserSideBucket)
    (h : ∀ sd, b1.get sd = b2.get sd) : b1 = b2 := by
  cases b1
  cases b2
  have h1 := h .both
  have h2 := h .left
  have h3 := h .right
  simp only [UserSideBucket.get] at h1 h2 h3
  simp [h1, h2, h3]

theorem insertEntry_eq (m : String → UserSideBucket) (e : ExtendedBodyPart) (s : String)
    (h1 : e.slug = some s) (h2 : s ≠ "") (k : String) :
    insertEntry m e k =
      if k = (parseMuscleSlug s).base then
        (m (parseMuscleSlug s).base).set (effectiveSideOf (parseMuscleSlug s).side e.side)
          (normalizeEntry e (parseMuscleSlug s).base
            (effectiveSideOf (parseMuscleSlug s).side e.side))
      else m k := by
  unfold insertEntry
  rw [h1]
  simp [h2]

theorem insertEntry_skip (m : String → UserSideBucket) (e : ExtendedBodyPart)
    (h : e.slug = none ∨ e.slug = some "") : insertEntry m e = m := by
  unfold insertEntry
  rcases h with h | h <;> rw [h] <;> simp

theorem insertEntry_agree (b : String) (sd : PartSide) (m m' : String → UserSideBucket)
    (hk : ∀ k, k ≠ b → m k = m' k)
    (hs : ∀ sd2, sd2 ≠ sd → (m b).get sd2 = (m' b).get sd2)
    (e : ExtendedBodyPart) :
    (∀ k, k ≠ b → insertEntry m e k = insertEntry m' e k) ∧
      (∀ sd2, sd2 ≠ sd → (insertEntry m e b).get sd2 = (insertEntry m' e b).get sd2) := by
  cases he : e.slug with
  | none =>
    rw [insertEntry_skip m e (Or.inl he), insertEntry_skip m' e (Or.inl he)]
    exact ⟨hk, hs⟩
  | some s =>
    by_cases hs0 : s = ""
    · subst hs0
      rw [insertEntry_skip m e (Or.inr he), insertEntry_skip m' e (Or.inr he)]
      exact ⟨hk, hs⟩
    · constructor
      · intro k hkb
        rw [insertEntry_eq m e s he hs0 k, insertEntry_eq m' e s he hs0 k]
        by_cases hkbase : k = (parseMuscleSlug s).base
        · rw [if_pos hkbase, if_pos hkbase, hk _ (hkbase ▸ hkb)]
        · rw [if_neg hkbase, if_neg hkbase]
          exact hk k hkb
      · intro sd2 hsd2
        rw [insertEntry_eq m e s he hs0 b, insertEntry_eq m' e s he hs0 b]
        by_cases hb : b = (parseMuscleSlug s).base
        · rw [if_pos hb, if_pos hb]
          by_cases heff : sd2 = effectiveSideOf (parseMuscleSlug s).side e.side
          · subst heff
            rw [UserSideBucket.get_set, UserSideBucket.get_set]
          · rw [UserSideBucket.get_set_ne _ _ _ _ heff,
              UserSideBucket.get_set_ne _ _ _ _ heff, ← hb]
            exact hs sd2 hsd2
        · rw [if_neg hb, if_neg hb]
          exact hs sd2 hsd2

theorem foldl_insertEntry_agree (b : String) (sd : PartSide) (l : List ExtendedBodyPart) :
    ∀ m m' : String → UserSideBucket,
      (∀ k, k ≠ b → m k = m' k) →
      (∀ sd2, sd2 ≠ sd → (m b).get sd2 = (m' b).get sd2) →
      (∀ k, k ≠ b → l.foldl insertEntry m k = l.foldl insertEntry m' k) ∧
        (∀ sd2, sd2 ≠ sd →
          (l.foldl insertEntry m b).get sd2 = (l.foldl insertEntry m' b).get sd2) := by
  induction l with
  | nil => intro m m' hk hs; exact ⟨hk, hs⟩
  | cons e t ih =>
    intro m m' hk hs
    have h := insertEntry_agree b sd m m' hk hs e
    exact ih _ _ h.1 h.2

theorem insertEntry_eq_of_agree (b : String) (sd : PartSide)
    (m m' : String → UserSideBucket) (e : ExtendedBodyPart) (s : String)
    (hk : ∀ k, k ≠ b → m k = m' k)
    (hs : ∀ sd2, sd2 ≠ sd → (m b).get sd2 = (m' b).get sd2)
    (h1 : e.slug = some s) (h2 : s ≠ "")
    (hb : (parseMuscleSlug s).base = b)
    (he : effectiveSideOf (parseMuscleSlug s).side e.side = sd) :
    insertEntry m e = insertEntry m' e := by
  funext k
  rw [insertEntry_eq m e s h1 h2 k, insertEntry_eq m' e s h1 h2 k]
  by_cases hkbase : k = (parseMuscleSlug s).base
  · rw [if_pos hkbase, if_pos hkbase]
    apply UserSideBucket.ext_get
    intro sd2
    by_cases heff : sd2 = effectiveSideOf (parseMuscleSlug s).side e.side
    · subst heff
      rw [UserSideBucket.get_set, UserSideBucket.get_set]
    · rw [UserSideBucket.get_set_ne _ _ _ _ heff, UserSideBucket.get_set_ne _ _ _ _ heff, hb]
      exact hs sd2 (by rw [← he]; exact heff)
  · rw [if_neg hkbase, if_neg hkbase]
    exact hk k (by rw [← hb]; exact hkbase)

/-! Merge and render lemmas -/

theorem mergeAssetWithUserData_fst_slug (cfg : Config) (a : ExtendedBodyPart)
    (u : Option ExtendedBodyPart) : ((mergeAssetWithUserData cfg a u).1).slug = a.slug := by
  cases u with
  | none => rfl
  | some u =>
    unfold mergeAssetWithUserData
    dsimp only
    split <;> split <;> first | rfl | (split <;> rfl)

theorem mergeForSegment_slug (cfg : Config) (buckets : String → UserSideBucket)
    (p : ExtendedBodyPart) :
    (mergeForSegment cfg buckets p).1.slug = p.slug ∧
      (mergeForSegment cfg buckets p).2.1.slug = p.slug ∧
      (mergeForSegment cfg buckets p).2.2.slug = p.slug := by
  unfold mergeForSegment
  dsimp only
  refine ⟨mergeAssetWithUserData_fst_slug _ _ _, ?_, ?_⟩ <;>
    rw [mergeAssetWithUserData_fst_slug, mergeAssetWithUserData_fst_slug]

theorem renderPart_mem_id (cfg : Config) (buckets : String → UserSideBucket)
    (p : ExtendedBodyPart) (instr : DrawInstr) (h : instr ∈ renderPart cfg buckets p) :
    instr.id = p.slug := by
  unfold renderPart at h
  simp only [List.mem_append, List.mem_map] at h
  rcases h with (⟨d, hd, rfl⟩ | ⟨d, hd, rfl⟩) | ⟨d, hd, rfl⟩ <;> rfl

/-! Evaluation helpers for the interpolation arithmetic -/

theorem jsRound_eq (q : ℚ) (n : ℤ) (h1 : (n : ℚ) ≤ q + 1 / 2) (h2 : q + 1 / 2 < n + 1) :
    jsRound q = n := by
  unfold jsRound
  exact Int.floor_eq_iff.mpr ⟨h1, h2⟩

theorem getProgressColor_eq (value : ℚ) (scale : ColorScale) (first : ColorStop)
    (rest : List ColorStop) (h : sortedStopsOf scale = first :: rest) :
    getProgressColor value scale =
      (let c := clampValue value
       let lo := (selectedPair c first rest).1
       let hi := (selectedPair c first rest).2
       if c = lo.value then some lo.color
       else if c = hi.value then some hi.color
       else if scale.interpolation = some .step then some lo.color
       else if hi.value - lo.value = 0 then
         some (interpolateColorInf lo.color hi.color (decide (0 < c - lo.value)))
       else some (interpolateColor lo.color hi.color ((c - lo.value) / (hi.value - lo.value)))) := by
  unfold getProgressColor
  rw [h]

theorem getProgressColor_default_80 :
    getProgressColor 80 DEFAULT_PROGRESS_SCALE = some "#32cf6c" := by
  rw [getProgressColor_eq 80 DEFAULT_PROGRESS_SCALE ⟨-100, "#ef4444"⟩
    [⟨-50, "#f87171"⟩, ⟨0, "#9ca3af"⟩, ⟨50, "#4ade80"⟩, ⟨100, "#22c55e"⟩] (by decide)]
  simp only [show clampValue 80 = 80 from by decide,
    show selectedPair 80 ⟨-100, "#ef4444"⟩
        [⟨-50, "#f87171"⟩, ⟨0, "#9ca3af"⟩, ⟨50, "#4ade80"⟩, ⟨100, "#22c55e"⟩] =
      (⟨50, "#4ade80"⟩, ⟨100, "#22c55e"⟩) from by decide]
  rw [if_neg (by norm_num : ¬(80 : ℚ) = (⟨50, "#4ade80"⟩ : ColorStop).value),
    if_neg (by norm_num : ¬(80 : ℚ) = (⟨100, "#22c55e"⟩ : ColorStop).value),
    if_neg (by decide : ¬DEFAULT_PROGRESS_SCALE.interpolation = some Interpolation.step),
    if_neg (by norm_num :
      ¬((⟨100, "#22c55e"⟩ : ColorStop).value - (⟨50, "#4ade80"⟩ : ColorStop).value = 0))]
  rw [show ((80 : ℚ) - (⟨50, "#4ade80"⟩ : ColorStop).value) /
      ((⟨100, "#22c55e"⟩ : ColorStop).value - (⟨50, "#4ade80"⟩ : ColorStop).value) = 3 / 5 from by
    norm_num]
  unfold interpolateColor
  dsimp only
  rw [show channelAt (removeFirstHash "#4ade80".data) 0 = some 74 from by decide,
    show channelAt (removeFirstHash "#4ade80".data) 2 = some 222 from by decide,
    show channelAt (removeFirstHash "#4ade80".data) 4 = some 128 from by decide,
    show channelAt (removeFirstHash "#22c55e".data) 0 = some 34 from by decide,
    show channelAt (removeFirstHash "#22c55e".data) 2 = some 197 from by decide,
    show channelAt (removeFirstHash "#22c55e".data) 4 = some 94 from by decide]
  simp only [interpChannel, Nat.cast_ofNat]
  rw [jsRound_eq ((74 : ℚ) + ((34 : ℚ) - (74 : ℚ)) * (3 / 5)) 50 (by norm_num) (by norm_num),
    jsRound_eq ((222 : ℚ) + ((197 : ℚ) - (222 : ℚ)) * (3 / 5)) 207 (by norm_num) (by norm_num),
    jsRound_eq ((128 : ℚ) + ((94 : ℚ) - (128 : ℚ)) * (3 / 5)) 108 (by norm_num) (by norm_num)]
  decide

theorem getProgressColor_default_neg80 :
    getProgressColor (-80) DEFAULT_PROGRESS_SCALE = some "#f35656" := by
  rw [getProgressColor_eq (-80) DEFAULT_PROGRESS_SCALE ⟨-100, "#ef4444"⟩
    [⟨-50, "#f87171"⟩, ⟨0, "#9ca3af"⟩, ⟨50, "#4ade80"⟩, ⟨100, "#22c55e"⟩] (by decide)]
  simp only [show clampValue (-80) = -80 from by decide,
    show selectedPair (-80) ⟨-100, "#ef4444"⟩
        [⟨-50, "#f87171"⟩, ⟨0, "#9ca3af"⟩, ⟨50, "#4ade80"⟩, ⟨100, "#22c55e"⟩] =
      (⟨-100, "#ef4444"⟩, ⟨-50, "#f87171"⟩) from by decide]
  rw [if_neg (by norm_num : ¬(-80 : ℚ) = (⟨-100, "#ef4444"⟩ : ColorStop).value),
    if_neg (by norm_num : ¬(-80 : ℚ) = (⟨-50, "#f87171"⟩ : ColorStop).value),
    if_neg (by decide : ¬DEFAULT_PROGRESS_SCALE.interpolation = some Interpolation.step),
    if_neg (by norm_num :
      ¬((⟨-50, "#f87171"⟩ : ColorStop).value - (⟨-100, "#ef4444"⟩ : ColorStop).value = 0))]
  rw [show ((-80 : ℚ) - (⟨-100, "#ef4444"⟩ : ColorStop).value) /
      ((⟨-50, "#f87171"⟩ : ColorStop).value - (⟨-100, "#ef4444"⟩ : ColorStop).value) = 2 / 5 from by
    norm_num]
  unfold interpolateColor
  dsimp only
  rw [show channelAt (removeFirstHash "#ef4444".data) 0 = some 239 from by decide,
    show channelAt (removeFirstHash "#ef4444".data) 2 = some 68 from by decide,
    show channelAt (removeFirstHash "#ef4444".data) 4 = some 68 from by decide,
    show channelAt (removeFirstHash "#f87171".data) 0 = some 248 from by decide,
    show channelAt (removeFirstHash "#f87171".data) 2 = some 113 from by decide,
    show channelAt (removeFirstHash "#f87171".data) 4 = some 113 from by decide]
  simp only [interpChannel, Nat.cast_ofNat]
  rw [jsRound_eq ((239 : ℚ) + ((248 : ℚ) - (239 : ℚ)) * (2 / 5)) 243 (by norm_num) (by norm_num),
    jsRound_eq ((68 : ℚ) + ((113 : ℚ) - (68 : ℚ)) * (2 / 5)) 86 (by norm_num) (by norm_num)]
  decide

theorem getProgressColor_degenerate_50 :
    getProgressColor 50 degenerateScale = some "#InfinityInfinityInfinity" := by
  rw [getProgressColor_eq 50 degenerateScale ⟨0, "#000000"⟩ [⟨0, "#ffffff"⟩] (by decide)]
  simp only [show clampValue 50 = 50 from by decide,
    show selectedPair 50 ⟨0, "#000000"⟩ [⟨0, "#ffffff"⟩] =
      (⟨0, "#000000"⟩, ⟨0, "#ffffff"⟩) from by decide]
  rw [if_neg (by norm_num : ¬(50 : ℚ) = (⟨0, "#000000"⟩ : ColorStop).value),
    if_neg (by norm_num : ¬(50 : ℚ) = (⟨0, "#ffffff"⟩ : ColorStop).value),
    if_neg (by decide : ¬degenerateScale.interpolation = some Interpolation.step),
    if_pos (by norm_num :
      (⟨0, "#ffffff"⟩ : ColorStop).value - (⟨0, "#000000"⟩ : ColorStop).value = 0)]
  rw [show ((50 : ℚ) - (⟨0, "#000000"⟩ : ColorStop).value) = 50 from by norm_num]
  decide

/-- The -left and -right suffixes cannot both be present at the end of one
string: as suffixes of the same string one would have to be a suffix of the
other, and neither is. -/
theorem endsWith_left_right_exclusive (s : String) :
    ¬(strEndsWith s "-left" = true ∧ strEndsWith s "-right" = true) := by
  rintro ⟨h1, h2⟩
  rw [strEndsWith, List.isSuffixOf_iff_suffix] at h1 h2
  rcases List.suffix_or_suffix_of_suffix h1 h2 with h | h
  · exact absurd h (by decide)
  · exact absurd h (by decide)

/-- The bucket slot written by the last entry of the data list. -/
theorem userDataByBaseSlug_concat_get (l : List ExtendedBodyPart) (e : ExtendedBodyPart)
    (s : String) (h1 : e.slug = some s) (h2 : s ≠ "") :
    (userDataByBaseSlug (l ++ [e]) (parseMuscleSlug s).base).get
        (effectiveSideOf (parseMuscleSlug s).side e.side) =
      some (normalizeEntry e (parseMuscleSlug s).base
        (effectiveSideOf (parseMuscleSlug s).side e.side)) := by
  unfold userDataByBaseSlug
  rw [List.foldl_append]
  simp only [List.foldl_cons, List.foldl_nil]
  rw [insertEntry_eq _ e s h1 h2, if_pos rfl]
  exact UserSideBucket.get_set _ _ _

/-! Claim theorems -/

/-- C4: the slug parser is purely lexical and anchored to end-of-string: a
string maps to side left with the last five characters stripped exactly when
it ends with -left, to side right with the last six characters stripped
exactly when it ends with -right, and otherwise passes through unchanged
with no side; in particular biceps, biceps-left and lower-back parse as the
spec lists. -/
theorem claim_C4_slug_parser_lexical (s : String) :
    ((parseMuscleSlug s).side = some LRSide.left ↔ strEndsWith s "-left" = true)
    ∧ (strEndsWith s "-left" = true →
        parseMuscleSlug s = ⟨s.dropRight 5, some LRSide.left⟩)
    ∧ ((parseMuscleSlug s).side = some LRSide.right ↔ strEndsWith s "-right" = true)
    ∧ (strEndsWith s "-right" = true →
        parseMuscleSlug s = ⟨s.dropRight 6, some LRSide.right⟩)
    ∧ (strEndsWith s "-left" = false → strEndsWith s "-right" = false →
        parseMuscleSlug s = ⟨s, none⟩)
    ∧ (strEndsWith s "-left" = true ↔ "-left".data <:+ s.data)
    ∧ parseMuscleSlug "biceps" = ⟨"biceps", none⟩
    ∧ parseMuscleSlug "biceps-left" = ⟨"biceps", some LRSide.left⟩
    ∧ parseMuscleSlug "lower-back" = ⟨"lower-back", none⟩ := by
  have hex := endsWith_left_right_exclusive s
  have pleft : strEndsWith s "-left" = true →
      parseMuscleSlug s = ⟨s.dropRight 5, some LRSide.left⟩ := by
    intro h
    unfold parseMuscleSlug
    rw [if_pos h]
  have pright : strEndsWith s "-right" = true →
      parseMuscleSlug s = ⟨s.dropRight 6, some LRSide.right⟩ := by
    intro h
    have hnl : ¬strEndsWith s "-left" = true := fun h1 => hex ⟨h1, h⟩
    unfold parseMuscleSlug
    rw [if_neg hnl, if_pos h]
  have pnone : strEndsWith s "-left" = false → strEndsWith s "-right" = false →
      parseMuscleSlug s = ⟨s, none⟩ := by
    intro hl hr
    unfold parseMuscleSlug
    rw [if_neg (by simp [hl]), if_neg (by simp [hr])]
  refine ⟨?_, pleft, ?_, pright, pnone, ?_, by decide, by decide, by decide⟩
  · constructor
    · intro hside
      cases hl : strEndsWith s "-left" with
      | true => rfl
      | false =>
        exfalso
        cases hr : strEndsWith s "-right" with
        | true => rw [pright hr] at hside; exact Option.noConfusion hside fun h => LRSide.noConfusion h
        | false => rw [pnone hl hr] at hside; exact Option.noConfusion hside
    · intro h
      rw [pleft h]
  · constructor
    · intro hside
      cases hr : strEndsWith s "-right" with
      | true => rfl
      | false =>
        exfalso
        cases hl : strEndsWith s "-left" with
        | true => rw [pleft hl] at hside; exact Option.noConfusion hside fun h => LRSide.noConfusion h
        | false => rw [pnone hl hr] at hside; exact Option.noConfusion hside
    · intro h
      rw [pright h]
  · rw [strEndsWith, List.isSuffixOf_iff_suffix]

/-- C4 witness at the concrete suffixed input. -/
theorem claim_C4_witness :
    strEndsWith "biceps-left" "-left" = true
    ∧ parseMuscleSlug "biceps-left" = ⟨"biceps-left".dropRight 5, some LRSide.left⟩ :=
  ⟨by decide, (claim_C4_slug_parser_lexical "biceps-left").2.1 (by decide)⟩

/-- C5: the side bucket an entry lands in is the effective side, which is the
suffix side when present, else the explicit side field, else both; a suffix
beats a conflicting explicit side field. -/
theorem claim_C5_effective_side (data : List ExtendedBodyPart) (e : ExtendedBodyPart)
    (s : String) (h1 : e.slug = some s) (h2 : s ≠ "") :
    (∀ lr, (parseMuscleSlug s).side = some lr →
      effectiveSideOf (parseMuscleSlug s).side e.side =
        (match lr with | .left => PartSide.left | .right => PartSide.right))
    ∧ ((parseMuscleSlug s).side = none →
        effectiveSideOf (parseMuscleSlug s).side e.side = e.side.getD PartSide.both)
    ∧ (userDataByBaseSlug (data ++ [e]) (parseMuscleSlug s).base).get
        (effectiveSideOf (parseMuscleSlug s).side e.side) =
      some (normalizeEntry e (parseMuscleSlug s).base
        (effectiveSideOf (parseMuscleSlug s).side e.side)) := by
  refine ⟨?_, ?_, userDataByBaseSlug_concat_get data e s h1 h2⟩
  · intro lr hlr
    rw [hlr]
    cases lr <;> rfl
  · intro hnone
    rw [hnone]
    rfl

/-- C5 witness: a suffixed slug with a conflicting explicit side field lands
in the suffix slot. -/
theorem claim_C5_witness :
    ({ sampleEntry "biceps-left" 10 with side := some PartSide.right } :
        ExtendedBodyPart).slug = some "biceps-left"
    ∧ ("biceps-left" : String) ≠ ""
    ∧ (userDataByBaseSlug ([] ++ [{ sampleEntry "biceps-left" 10 with side := some PartSide.right }])
          (parseMuscleSlug "biceps-left").base).get
        (effectiveSideOf (parseMuscleSlug "biceps-left").side
          ({ sampleEntry "biceps-left" 10 with side := some PartSide.right } :
            ExtendedBodyPart).side) =
      some (normalizeEntry { sampleEntry "biceps-left" 10 with side := some PartSide.right }
        (parseMuscleSlug "biceps-left").base
        (effectiveSideOf (parseMuscleSlug "biceps-left").side
          ({ sampleEntry "biceps-left" 10 with side := some PartSide.right } :
            ExtendedBodyPart).side)) :=
  ⟨rfl, by decide,
    (claim_C5_effective_side [] _ "biceps-left" rfl (by decide)).2.2⟩

/-- C6: when two entries resolve to the same base and effective side, the
later entry owns the slot and the earlier entry contributes nothing: the
whole bucket map is the one computed without the earlier entry. -/
theorem claim_C6_last_write_wins (l1 l2 : List ExtendedBodyPart) (e1 e2 : ExtendedBodyPart)
    (s1 s2 : String) (h1 : e1.slug = some s1) (h2 : e2.slug = some s2)
    (hn1 : s1 ≠ "") (hn2 : s2 ≠ "")
    (hbase : (parseMuscleSlug s1).base = (parseMuscleSlug s2).base)
    (hside : effectiveSideOf (parseMuscleSlug s1).side e1.side =
      effectiveSideOf (parseMuscleSlug s2).side e2.side) :
    userDataByBaseSlug (l1 ++ e1 :: (l2 ++ [e2])) = userDataByBaseSlug (l1 ++ (l2 ++ [e2]))
    ∧ (userDataByBaseSlug (l1 ++ e1 :: (l2 ++ [e2])) (parseMuscleSlug s2).base).get
        (effectiveSideOf (parseMuscleSlug s2).side e2.side) =
      some (normalizeEntry e2 (parseMuscleSlug s2).base
        (effectiveSideOf (parseMuscleSlug s2).side e2.side)) := by
  constructor
  · unfold userDataByBaseSlug
    rw [List.foldl_append, List.foldl_append, List.foldl_cons, List.foldl_append,
      List.foldl_append]
    simp only [List.foldl_cons, List.foldl_nil]
    set b := (parseMuscleSlug s2).base with hb
    set sd := effectiveSideOf (parseMuscleSlug s2).side e2.side with hsd
    set m0 := List.foldl insertEntry (fun _ => emptyBucket) l1 with hm0
    have hstart1 : ∀ k, k ≠ b → insertEntry m0 e1 k = m0 k := by
      intro k hk
      rw [insertEntry_eq m0 e1 s1 h1 hn1 k, if_neg (by rw [hbase]; exact hk)]
    have hstart2 : ∀ sd2, sd2 ≠ sd →
        (insertEntry m0 e1 b).get sd2 = (m0 b).get sd2 := by
      intro sd2 hsd2
      rw [insertEntry_eq m0 e1 s1 h1 hn1 b, if_pos hbase.symm]
      rw [UserSideBucket.get_set_ne _ _ _ _ (by rw [hside]; exact hsd2), ← hbase]
    have hagree := foldl_insertEntry_agree b sd l2 (insertEntry m0 e1) m0 hstart1 hstart2
    exact insertEntry_eq_of_agree b sd _ _ e2 s2 hagree.1 hagree.2 h2 hn2 rfl rfl
  · have hlist : l1 ++ e1 :: (l2 ++ [e2]) = (l1 ++ e1 :: l2) ++ [e2] := by simp
    rw [hlist]
    exact userDataByBaseSlug_concat_get _ e2 s2 h2 hn2

/-- C6 witness at two concrete same-slot entries. -/
theorem claim_C6_witness :
    (sampleEntry "biceps" 10).slug = some "biceps"
    ∧ (sampleEntry "biceps" 20).slug = some "biceps"
    ∧ ("biceps" : String) ≠ ""
    ∧ userDataByBaseSlug ([] ++ sampleEntry "biceps" 10 :: ([] ++ [sampleEntry "biceps" 20])) =
        userDataByBaseSlug ([] ++ ([] ++ [sampleEntry "biceps" 20]))
    ∧ (userDataByBaseSlug ([] ++ sampleEntry "biceps" 10 :: ([] ++ [sampleEntry "biceps" 20]))
          (parseMuscleSlug "biceps").base).get
        (effectiveSideOf (parseMuscleSlug "biceps").side (sampleEntry "biceps" 20).side) =
      some (normalizeEntry (sampleEntry "biceps" 20) (parseMuscleSlug "biceps").base
        (effectiveSideOf (parseMuscleSlug "biceps").side (sampleEntry "biceps" 20).side)) := by
  have h := claim_C6_last_write_wins [] [] (sampleEntry "biceps" 10) (sampleEntry "biceps" 20)
    "biceps" "biceps" rfl rfl (by decide) (by decide) rfl rfl
  exact ⟨rfl, rfl, by decide, h.1, h.2⟩

/-- C2: a part whose slug is in the disabled list resolves to the fixed
disabled color, whatever its styles, color, intensity, progress or skin
classification, and every path emitted for it is filled with that color. -/
theorem claim_C2_disabled_short_circuit (cfg : Config) (buckets : String → UserSideBucket)
    (part : ExtendedBodyPart) (s : String)
    (h1 : part.slug = some s) (h2 : s ≠ "") (h3 : s ∈ cfg.disabledParts) :
    getColorToFill cfg part = some "#EBEBE4"
    ∧ ∀ instr ∈ renderPart cfg buckets part, instr.fill = "#EBEBE4" := by
  have hmem : slugTruthyMem part.slug cfg.disabledParts = true := by
    rw [h1]
    unfold slugTruthyMem
    rw [Bool.and_eq_true]
    exact ⟨by simp [h2], List.elem_iff.mpr h3⟩
  have hfill : ∀ q : ExtendedBodyPart, q.slug = part.slug →
      getColorToFill cfg q = some "#EBEBE4" := by
    intro q hq
    unfold getColorToFill
    rw [hq, if_pos hmem]
  refine ⟨hfill part rfl, ?_⟩
  intro instr hin
  have hm := mergeForSegment_slug cfg buckets part
  have hB := hfill _ hm.1
  have hL := hfill _ hm.2.1
  have hR := hfill _ hm.2.2
  unfold renderPart at hin
  simp only [List.mem_append, List.mem_map] at hin
  rcases hin with (⟨d, hd, rfl⟩ | ⟨d, hd, rfl⟩) | ⟨d, hd, rfl⟩ <;>
    simp only [hB, hL, hR, Option.getD_some]

/-- C2 witness: an entry carrying an explicit style fill, direct color,
intensity and progress still resolves to the disabled color. -/
theorem claim_C2_witness :
    ({ slug := some "biceps", color := some "#ff0000", path := none, intensity := some 2
     , progress := some ⟨30, none, none⟩, side := none
     , styles := some ⟨some "#123456", none, none⟩ } : ExtendedBodyPart).slug = some "biceps"
    ∧ ("biceps" : String) ≠ ""
    ∧ "biceps" ∈ ({ defaultCfg with disabledParts := ["biceps"] } : Config).disabledParts
    ∧ getColorToFill { defaultCfg with disabledParts := ["biceps"] }
        { slug := some "biceps", color := some "#ff0000", path := none, intensity := some 2
        , progress := some ⟨30, none, none⟩, side := none
        , styles := some ⟨some "#123456", none, none⟩ } = some "#EBEBE4" :=
  ⟨rfl, by decide, by decide,
    (claim_C2_disabled_short_circuit { defaultCfg with disabledParts := ["biceps"] }
      (fun _ => emptyBucket) _ "biceps" rfl (by decide) (by decide)).1⟩

/-- C3: a hidden slug never appears among the emitted draw instructions, and
the output is the same as the output on the input with those parts already
removed: hidden parts are dropped before any merge work. -/
theorem claim_C3_hidden_filtered (cfg : Config) (buckets : String → UserSideBucket)
    (parts : List ExtendedBodyPart) (s : String) (hs : s ∈ cfg.hiddenParts) :
    (∀ instr ∈ renderBodySvg cfg buckets parts, instr.id ≠ some s)
    ∧ renderBodySvg cfg buckets parts =
        renderBodySvg cfg buckets (parts.filter (fun p => !(p.slug == some s))) := by
  have hslug : ∀ p : ExtendedBodyPart, hiddenFilter cfg p = true → p.slug ≠ some s := by
    intro p hp hcontra
    unfold hiddenFilter at hp
    rw [hcontra] at hp
    simp only [Bool.not_eq_true'] at hp
    exact absurd ((List.elem_iff.mpr hs).symm.trans hp) (by decide)
  constructor
  · intro instr hin
    unfold renderBodySvg at hin
    rw [List.mem_flatMap] at hin
    obtain ⟨p, hp, hinstr⟩ := hin
    rw [List.mem_filter] at hp
    rw [renderPart_mem_id cfg buckets p instr hinstr]
    exact hslug p hp.2
  · unfold renderBodySvg
    rw [List.filter_filter]
    congr 1
    apply List.filter_congr
    intro p _
    cases hp : hiddenFilter cfg p with
    | false => simp
    | true =>
      have := hslug p hp
      simp only [Bool.and_true, Bool.true_and, Bool.not_eq_true', beq_eq_false_iff_ne]
      simpa using this

/-- C3 witness: with biceps hidden, no instruction carries the biceps id. -/
theorem claim_C3_witness :
    "biceps" ∈ ({ defaultCfg with hiddenParts := ["biceps"] } : Config).hiddenParts
    ∧ ∀ instr ∈ renderBodySvg { defaultCfg with hiddenParts := ["biceps"] }
        (fun _ => emptyBucket) [sampleEntry "biceps" 0, sampleEntry "chest" 0],
        instr.id ≠ some "biceps" :=
  ⟨by decide,
    (claim_C3_hidden_filtered { defaultCfg with hiddenParts := ["biceps"] }
      (fun _ => emptyBucket) [sampleEntry "biceps" 0, sampleEntry "chest" 0] "biceps"
      (by decide)).1⟩

/-- Second component of the merge when the user entry carries a progress
record: the entry comes back with the derived color attached when its
progress color was falsy, unchanged otherwise. -/
theorem mergeAssetWithUserData_snd (cfg : Config) (a u : ExtendedBodyPart)
    (v : ℚ) (co : Option String) (sv : Option Bool)
    (hu : u.progress = some ⟨v, co, sv⟩) :
    (mergeAssetWithUserData cfg a (some u)).2 =
      (if jsFalsyStr co = true then
        some { u with progress := some ⟨v, getProgressColor v cfg.colorScale, sv⟩ }
      else some u) := by
  unfold mergeAssetWithUserData
  dsimp only
  by_cases hcnd : (jsFalsyStr (u.styles.bind fun x => x.fill) && jsFalsyStr u.color
      && intensityTruthy u.intensity) = true
  · rw [if_pos hcnd]
    dsimp only
    rw [hu]
    dsimp only
    by_cases hco : jsFalsyStr co = true
    · rw [if_pos hco, if_pos hco]
    · rw [if_neg hco, if_neg hco]
  · rw [if_neg hcnd]
    dsimp only
    rw [hu]
    dsimp only
    by_cases hco : jsFalsyStr co = true
    · rw [if_pos hco, if_pos hco]
    · rw [if_neg hco, if_neg hco]

/-- Progress of the merged part when the user entry carries a progress
record. -/
theorem mergeAssetWithUserData_fst_progress (cfg : Config) (a u : ExtendedBodyPart)
    (v : ℚ) (co : Option String) (sv : Option Bool)
    (hu : u.progress = some ⟨v, co, sv⟩) :
    ((mergeAssetWithUserData cfg a (some u)).1).progress =
      (if jsFalsyStr co = true then
        some (⟨v, getProgressColor v cfg.colorScale, sv⟩ : BodyPartProgress)
      else some ⟨v, co, sv⟩) := by
  unfold mergeAssetWithUserData
  dsimp only
  by_cases hcnd : (jsFalsyStr (u.styles.bind fun x => x.fill) && jsFalsyStr u.color
      && intensityTruthy u.intensity) = true
  · rw [if_pos hcnd]
    dsimp only
    rw [hu]
    dsimp only
    by_cases hco : jsFalsyStr co = true
    · rw [if_pos hco, if_pos hco]
    · rw [if_neg hco, if_neg hco]
  · rw [if_neg hcnd]
    dsimp only
    rw [hu]
    dsimp only
    by_cases hco : jsFalsyStr co = true
    · rw [if_pos hco, if_pos hco]
    · rw [if_neg hco, if_neg hco]

/-- C10: when a user entry has a progress value and no color, the merge
attaches the derived color to the progress record shared with the caller, so
the attachment survives the call, and a later merge of the same entry under
another configuration keeps the previously attached color instead of
deriving one from the new scale. -/
theorem claim_C10_progress_mutation (cfg1 cfg2 : Config) (asset1 asset2 u : ExtendedBodyPart)
    (v : ℚ) (sv : Option Bool) (c : String)
    (hu : u.progress = some ⟨v, none, sv⟩)
    (hc : getProgressColor v cfg1.colorScale = some c) (hcne : c ≠ "") :
    (mergeAssetWithUserData cfg1 asset1 (some u)).2 =
        some { u with progress := some ⟨v, some c, sv⟩ }
    ∧ ((mergeAssetWithUserData cfg1 asset1 (some u)).1).progress = some ⟨v, some c, sv⟩
    ∧ ((mergeAssetWithUserData cfg2 asset2
          (some { u with progress := some ⟨v, some c, sv⟩ })).1).progress =
        some ⟨v, some c, sv⟩
    ∧ (mergeAssetWithUserData cfg2 asset2
          (some { u with progress := some ⟨v, some c, sv⟩ })).2 =
        some { u with progress := some ⟨v, some c, sv⟩ } := by
  have hfalsy : jsFalsyStr (none : Option String) = true := rfl
  have hkeep : jsFalsyStr (some c) = false := by
    simp [jsFalsyStr, hcne]
  have hu2 : ({ u with progress := some ⟨v, some c, sv⟩ } : ExtendedBodyPart).progress =
      some ⟨v, some c, sv⟩ := rfl
  refine ⟨?_, ?_, ?_, ?_⟩
  · rw [mergeAssetWithUserData_snd cfg1 asset1 u v none sv hu, if_pos hfalsy, hc]
  · rw [mergeAssetWithUserData_fst_progress cfg1 asset1 u v none sv hu, if_pos hfalsy, hc]
  · rw [mergeAssetWithUserData_fst_progress cfg2 asset2 _ v (some c) sv hu2,
      if_neg (by rw [hkeep]; exact Bool.false_ne_true)]
  · rw [mergeAssetWithUserData_snd cfg2 asset2 _ v (some c) sv hu2,
      if_neg (by rw [hkeep]; exact Bool.false_ne_true)]

/-- C10 witness at the default scale and a step scale. -/
theorem claim_C10_witness :
    (sampleEntry "biceps" 80).progress = some ⟨80, none, none⟩
    ∧ getProgressColor 80 defaultCfg.colorScale = some "#32cf6c"
    ∧ ("#32cf6c" : String) ≠ ""
    ∧ (mergeAssetWithUserData defaultCfg (sampleEntry "chest" 0) (some (sampleEntry "biceps" 80))).2 =
        some { sampleEntry "biceps" 80 with progress := some ⟨80, some "#32cf6c", none⟩ }
    ∧ ((mergeAssetWithUserData { defaultCfg with colorScale := cexStepScale }
          (sampleEntry "chest" 0)
          (some { sampleEntry "biceps" 80 with progress := some ⟨80, some "#32cf6c", none⟩ })).1).progress =
        some ⟨80, some "#32cf6c", none⟩ := by
  have h := claim_C10_progress_mutation defaultCfg { defaultCfg with colorScale := cexStepScale }
    (sampleEntry "chest" 0) (sampleEntry "chest" 0) (sampleEntry "biceps" 80) 80 none "#32cf6c"
    rfl getProgressColor_default_80 (by decide)
  exact ⟨rfl, getProgressColor_default_80, by decide, h.1, h.2.2.1⟩

/-- C7: when the clamped value equals the value of some stop, the resolver
returns the color of a stop carrying exactly that value, before any
interpolation arithmetic; the default-scale stops at -100, 0 and 100 resolve
to their colors verbatim. -/
theorem claim_C7_exact_stop (scale : ColorScale) (value : ℚ)
    (hex : ∃ s ∈ scale.stops, s.value = clampValue value) :
    (∃ s ∈ scale.stops, s.value = clampValue value ∧
        getProgressColor value scale = some s.color)
    ∧ getProgressColor (-100) DEFAULT_PROGRESS_SCALE = some "#ef4444"
    ∧ getProgressColor 0 DEFAULT_PROGRESS_SCALE = some "#9ca3af"
    ∧ getProgressColor 100 DEFAULT_PROGRESS_SCALE = some "#22c55e" := by
  refine ⟨?_, by decide, by decide, by decide⟩
  obtain ⟨s0, hs0, hv0⟩ := hex
  have hmem0 : s0 ∈ sortedStopsOf scale := (mem_sortStops s0 scale.stops).mpr hs0
  cases hss : sortedStopsOf scale with
  | nil =>
    rw [hss] at hmem0
    exact absurd hmem0 (List.not_mem_nil s0)
  | cons first rest =>
    have hpw : (first :: rest).Pairwise StopLE := by
      rw [← hss]
      exact pairwise_sortStops scale.stops
    have hex2 : ∃ s ∈ first :: rest, s.value = clampValue value := by
      rw [← hss]
      exact ⟨s0, hmem0, hv0⟩
    have hexact := selectedPair_exact (clampValue value) rest first hpw hex2
    have heq := getProgressColor_eq value scale first rest hss
    by_cases hlo : clampValue value = (selectedPair (clampValue value) first rest).1.value
    · refine ⟨(selectedPair (clampValue value) first rest).1, ?_, hlo.symm, ?_⟩
      · have hm := (selectedPair_mem (clampValue value) first rest).1
        rw [← hss] at hm
        exact (mem_sortStops _ _).mp hm
      · rw [heq]
        dsimp only
        rw [if_pos hlo]
    · have hhi : clampValue value = (selectedPair (clampValue value) first rest).2.value :=
        hexact.resolve_left hlo
      refine ⟨(selectedPair (clampValue value) first rest).2, ?_, hhi.symm, ?_⟩
      · have hm := (selectedPair_mem (clampValue value) first rest).2
        rw [← hss] at hm
        exact (mem_sortStops _ _).mp hm
      · rw [heq]
        dsimp only
        rw [if_neg hlo, if_pos hhi]

/-- C7 witness at value 50 of the default scale, an exact stop. -/
theorem claim_C7_witness :
    (∃ s ∈ DEFAULT_PROGRESS_SCALE.stops, s.value = clampValue 50)
    ∧ (∃ s ∈ DEFAULT_PROGRESS_SCALE.stops, s.value = clampValue 50 ∧
        getProgressColor 50 DEFAULT_PROGRESS_SCALE = some s.color) :=
  ⟨by decide, (claim_C7_exact_stop DEFAULT_PROGRESS_SCALE 50 (by decide)).1⟩

/-- C8 counterexample: a step scale with stops at 0 and 50; at value 100 the
clamped value lies strictly above the highest stop, and the resolver returns
the lowest stop color, not the nearest (highest) end stop color that the
claim requires. -/
theorem claim_C8_counterexample :
    getProgressColor 100 cexStepScale = some "#111111"
    ∧ ¬getProgressColor 100 cexStepScale = some "#222222"
    ∧ sortedStopsOf cexStepScale = [⟨0, "#111111"⟩, ⟨50, "#222222"⟩]
    ∧ (∀ s ∈ cexStepScale.stops, s.value < clampValue 100) := by
  decide

/-- C8 amended: when the clamped value lies strictly outside the span of the
stops, the bracket stays at its initialisation, the pair of the first and
last sorted stop; step interpolation then returns the first (lowest) stop
color on either side, and linear interpolation applies the interpolation
formula with that degenerate pair, an out-of-range factor (extrapolation),
rather than returning the nearest end stop color. -/
theorem claim_C8_out_of_span (scale : ColorScale) (value : ℚ) (first : ColorStop)
    (rest : List ColorStop) (h : sortedStopsOf scale = first :: rest)
    (hout : (∀ s ∈ scale.stops, clampValue value < s.value) ∨
            (∀ s ∈ scale.stops, s.value < clampValue value)) :
    getProgressColor value scale =
      some (if scale.interpolation = some .step then first.color
        else if ((first :: rest).getLast (List.cons_ne_nil first rest)).value - first.value = 0
        then interpolateColorInf first.color
          ((first :: rest).getLast (List.cons_ne_nil first rest)).color
          (decide (0 < clampValue value - first.value))
        else interpolateColor first.color
          ((first :: rest).getLast (List.cons_ne_nil first rest)).color
          ((clampValue value - first.value) /
            (((first :: rest).getLast (List.cons_ne_nil first rest)).value - first.value))) := by
  have hout2 : (∀ s ∈ first :: rest, clampValue value < s.value) ∨
      (∀ s ∈ first :: rest, s.value < clampValue value) := by
    rcases hout with h1 | h1
    · left
      intro s hsmem
      have hsmem2 : s ∈ sortedStopsOf scale := by rw [h]; exact hsmem
      exact h1 s ((mem_sortStops _ _).mp hsmem2)
    · right
      intro s hsmem
      have hsmem2 : s ∈ sortedStopsOf scale := by rw [h]; exact hsmem
      exact h1 s ((mem_sortStops _ _).mp hsmem2)
  have hfb : findBracket (clampValue value) (first :: rest) = none := by
    rcases hout2 with h1 | h1
    · exact findBracket_none_of_lt _ _ h1
    · exact findBracket_none_of_gt _ _ h1
  have hsel : selectedPair (clampValue value) first rest =
      (first, (first :: rest).getLast (List.cons_ne_nil first rest)) := by
    rw [selectedPair, hfb]
    rfl
  have hne1 : ¬clampValue value = first.value := by
    rcases hout2 with h1 | h1
    · exact ne_of_lt (h1 first (List.mem_cons_self _ _))
    · exact ne_of_gt (h1 first (List.mem_cons_self _ _))
  have hne2 : ¬clampValue value =
      ((first :: rest).getLast (List.cons_ne_nil first rest)).value := by
    rcases hout2 with h1 | h1
    · exact ne_of_lt (h1 _ (List.getLast_mem _))
    · exact ne_of_gt (h1 _ (List.getLast_mem _))
  rw [getProgressColor_eq value scale first rest h]
  dsimp only
  rw [hsel]
  dsimp only
  rw [if_neg hne1, if_neg hne2]
  by_cases hstep : scale.interpolation = some Interpolation.step
  · rw [if_pos hstep, if_pos hstep]
  · rw [if_neg hstep, if_neg hstep]
    by_cases hrange :
        ((first :: rest).getLast (List.cons_ne_nil first rest)).value - first.value = 0
    · rw [if_pos hrange, if_pos hrange]
    · rw [if_neg hrange, if_neg hrange]

/-- C8 amended witness: the step scale above its highest stop. -/
theorem claim_C8_witness :
    (sortedStopsOf cexStepScale = [⟨0, "#111111"⟩, ⟨50, "#222222"⟩]
      ∧ ∀ s ∈ cexStepScale.stops, s.value < clampValue 100)
    ∧ getProgressColor 100 cexStepScale = some "#111111" :=
  ⟨⟨by decide, by decide⟩,
    claim_C8_out_of_span cexStepScale 100 ⟨0, "#111111"⟩ [⟨50, "#222222"⟩] (by decide)
      (Or.inr (by decide))⟩

/-- C9 counterexample: a linear scale whose two stops share value 0, so the
selected pair is degenerate, at value 50; the division by zero is performed
and the result is the Infinity string, not the lower stop color. -/
theorem claim_C9_counterexample :
    getProgressColor 50 degenerateScale = some "#InfinityInfinityInfinity"
    ∧ ¬getProgressColor 50 degenerateScale = some "#000000"
    ∧ sortedStopsOf degenerateScale = [⟨0, "#000000"⟩, ⟨0, "#ffffff"⟩]
    ∧ (selectedPair (clampValue 50) ⟨0, "#000000"⟩ [⟨0, "#ffffff"⟩]).1 = ⟨0, "#000000"⟩
    ∧ (selectedPair (clampValue 50) ⟨0, "#000000"⟩ [⟨0, "#ffffff"⟩]).2 = ⟨0, "#ffffff"⟩ := by
  refine ⟨getProgressColor_degenerate_50, ?_, by decide, by decide, by decide⟩
  rw [getProgressColor_degenerate_50]
  decide

/-- C9 amended: when the clamped value lies inside the span of the sorted
stops, a degenerate selected pair forces the clamped value to equal the
lower stop value, so the exact-match check returns the lower stop color
before the division; the division by zero is reached only with the value
outside the span of all-equal stops. -/
theorem claim_C9_degenerate_guard (scale : ColorScale) (value : ℚ) (first : ColorStop)
    (rest : List ColorStop) (h : sortedStopsOf scale = first :: rest)
    (hlo : first.value ≤ clampValue value)
    (hhi : clampValue value ≤ ((first :: rest).getLast (List.cons_ne_nil first rest)).value)
    (hdeg : (selectedPair (clampValue value) first rest).1.value =
      (selectedPair (clampValue value) first rest).2.value) :
    getProgressColor value scale =
      some (selectedPair (clampValue value) first rest).1.color := by
  have hpw : (first :: rest).Pairwise StopLE := by
    rw [← h]
    exact pairwise_sortStops scale.stops
  have hbr := selectedPair_bracket (clampValue value) rest first hpw hlo hhi
  have hceq : clampValue value = (selectedPair (clampValue value) first rest).1.value :=
    le_antisymm (by rw [hdeg]; exact hbr.2) hbr.1
  rw [getProgressColor_eq value scale first rest h]
  dsimp only
  rw [if_pos hceq]

/-- C9 amended witness: duplicate stops at value 50 with the value inside
the span. -/
theorem claim_C9_witness :
    (sortedStopsOf duplicateStopScale = [⟨50, "#aa0000"⟩, ⟨50, "#bb0000"⟩]
      ∧ (⟨50, "#aa0000"⟩ : ColorStop).value ≤ clampValue 50
      ∧ clampValue 50 ≤
          ((([⟨50, "#aa0000"⟩, ⟨50, "#bb0000"⟩] : List ColorStop).getLast
            (List.cons_ne_nil _ _)).value)
      ∧ (selectedPair (clampValue 50) ⟨50, "#aa0000"⟩ [⟨50, "#bb0000"⟩]).1.value =
          (selectedPair (clampValue 50) ⟨50, "#aa0000"⟩ [⟨50, "#bb0000"⟩]).2.value)
    ∧ getProgressColor 50 duplicateStopScale = some "#aa0000" :=
  ⟨⟨by decide, by decide, by decide, by decide⟩,
    claim_C9_degenerate_guard duplicateStopScale 50 ⟨50, "#aa0000"⟩ [⟨50, "#bb0000"⟩]
      (by decide) (by decide) (by decide) (by decide)⟩

/-- The left-variant fill of the C1 render depends only on the left progress
value: it is the scale color of that value. -/
theorem fill_left_eq (asset : ExtendedBodyPart) (ha : asset.slug = some "biceps")
    (a b : ℚ) :
    getColorToFill defaultCfg
      (mergeForSegment defaultCfg (userDataByBaseSlug (sampleData a b)) asset).2.1 =
    getProgressColor a DEFAULT_PROGRESS_SCALE := by
  obtain ⟨sl, c0, p0, i0, pr0, sd0, st0⟩ := asset
  dsimp only at ha
  subst ha
  rfl

/-- The right-variant fill of the C1 render depends only on the right
progress value. -/
theorem fill_right_eq (asset : ExtendedBodyPart) (ha : asset.slug = some "biceps")
    (a b : ℚ) :
    getColorToFill defaultCfg
      (mergeForSegment defaultCfg (userDataByBaseSlug (sampleData a b)) asset).2.2 =
    getProgressColor b DEFAULT_PROGRESS_SCALE := by
  obtain ⟨sl, c0, p0, i0, pr0, sd0, st0⟩ := asset
  dsimp only at ha
  subst ha
  rfl

/-- C1: with the two entries biceps-left at 80 and biceps-right at -80 under
the default scale, the merged left variant resolves to a color distinct from
the right variant color; each side fill is a function of its own progress
value only; and the left and right variants are merged on top of the both
merge, not on the raw asset. -/
theorem claim_C1_bilateral (asset : ExtendedBodyPart) (ha : asset.slug = some "biceps")
    (v v2 w w2 : ℚ) :
    (getColorToFill defaultCfg
        (mergeForSegment defaultCfg (userDataByBaseSlug (sampleData 80 (-80))) asset).2.1 =
          some "#32cf6c"
      ∧ getColorToFill defaultCfg
          (mergeForSegment defaultCfg (userDataByBaseSlug (sampleData 80 (-80))) asset).2.2 =
          some "#f35656"
      ∧ getColorToFill defaultCfg
          (mergeForSegment defaultCfg (userDataByBaseSlug (sampleData 80 (-80))) asset).2.1 ≠
        getColorToFill defaultCfg
          (mergeForSegment defaultCfg (userDataByBaseSlug (sampleData 80 (-80))) asset).2.2)
    ∧ getColorToFill defaultCfg
        (mergeForSegment defaultCfg (userDataByBaseSlug (sampleData v w)) asset).2.1 =
      getColorToFill defaultCfg
        (mergeForSegment defaultCfg (userDataByBaseSlug (sampleData v w2)) asset).2.1
    ∧ getColorToFill defaultCfg
        (mergeForSegment defaultCfg (userDataByBaseSlug (sampleData v w)) asset).2.2 =
      getColorToFill defaultCfg
        (mergeForSegment defaultCfg (userDataByBaseSlug (sampleData v2 w)) asset).2.2
    ∧ (mergeForSegment defaultCfg (userDataByBaseSlug (sampleData v w)) asset).2.1 =
        (mergeAssetWithUserData defaultCfg
          (mergeForSegment defaultCfg (userDataByBaseSlug (sampleData v w)) asset).1
          (bucketFor (userDataByBaseSlug (sampleData v w)) asset.slug).left).1
    ∧ (mergeForSegment defaultCfg (userDataByBaseSlug (sampleData v w)) asset).2.2 =
        (mergeAssetWithUserData defaultCfg
          (mergeForSegment defaultCfg (userDataByBaseSlug (sampleData v w)) asset).1
          (bucketFor (userDataByBaseSlug (sampleData v w)) asset.slug).right).1 := by
  refine ⟨⟨?_, ?_, ?_⟩, ?_, ?_, rfl, rfl⟩
  · rw [fill_left_eq asset ha 80 (-80), getProgressColor_default_80]
  · rw [fill_right_eq asset ha 80 (-80), getProgressColor_default_neg80]
  · rw [fill_left_eq asset ha 80 (-80), fill_right_eq asset ha 80 (-80),
      getProgressColor_default_80, getProgressColor_default_neg80]
    decide
  · rw [fill_left_eq asset ha v w, fill_left_eq asset ha v w2]
  · rw [fill_right_eq asset ha v w, fill_right_eq asset ha v2 w]

/-- C1 witness at a concrete biceps asset part. -/
theorem claim_C1_witness :
    (sampleEntry "biceps" 0).slug = some "biceps"
    ∧ getColorToFill defaultCfg
        (mergeForSegment defaultCfg (userDataByBaseSlug (sampleData 80 (-80)))
          (sampleEntry "biceps" 0)).2.1 = some "#32cf6c"
    ∧ getColorToFill defaultCfg
        (mergeForSegment defaultCfg (userDataByBaseSlug (sampleData 80 (-80)))
          (sampleEntry "biceps" 0)).2.2 = some "#f35656" := by
  have h := claim_C1_bilateral (sampleEntry "biceps" 0) rfl 1 2 3 4
  exact ⟨rfl, h.1.1, h.1.2.1⟩

end BodyHighlighter
